import Mathlib

/-!
Shallow embedding of the Review Issue Extraction Engine
(`ReviewParser.parseReviewContent` and its helpers from the repository
source file defining `ReviewParser`).

Modelling conventions:
* Text is modelled as `List Char`, i.e. sequences of Unicode scalar values.
  (JavaScript strings are UTF-16 code-unit sequences; all inputs used by the
  concrete theorems below are surrogate-insensitive, so the scalar model
  coincides with the source semantics on them.)
* JavaScript numbers holding line numbers are modelled as `Option Int`:
  `some n` is the exact integer `n`, `none` models `NaN` (which arises from
  `parseInt` on a non-numeric string).  No other numeric behaviour of the
  source reaches a claim.
* Regular-expression matching is hand-compiled, pattern by pattern, to
  deterministic scanners that mirror the backtracking behaviour of the
  specific regex literals in the source (lazy `(.+?)`, greedy `\s*`, the
  multiline `^`-anchored list-bullet pattern, and so on).
* Scanning drivers that jump over a whole match use a `fuel` argument for
  structural termination; callers always pass `length + 1`, which is
  sufficient because every step consumes at least one character.
* Fallible steps return `Option`; the one runtime exception reachable in the
  source (calling `.trim()` on the undefined capture of the group-free
  `Context:/Task:` regex) is modelled by `extractIssueContext` returning
  `none`, which the `try/catch` of `extractIssueDetails` turns into a
  discarded issue, exactly as in the source.
-/

/-- JavaScript `\s` (whitespace class), restricted to the code points that can
appear in this development; also used for `String.prototype.trim`. -/
def isJsWs (c : Char) : Bool :=
  c = ' ' || c = '\t' || c = '\n' || c = '\r' ||
  c.toNat = 0x0b || c.toNat = 0x0c || c.toNat = 0xa0 ||
  c.toNat = 0x2028 || c.toNat = 0x2029 || c.toNat = 0xfeff

/-- JavaScript `.` without the `s` flag: any character except line terminators. -/
def isDotC (c : Char) : Bool :=
  !(c = '\n' || c = '\r' || c.toNat = 0x2028 || c.toNat = 0x2029)

/-- JavaScript `\w`. -/
def isWordC (c : Char) : Bool :=
  c.isAlpha || c.isDigit || c = '_'

/-- ASCII case folding, as performed by `toLowerCase` on the inputs in scope
(no non-ASCII cased letters occur in the keyword tables or inputs). -/
def lcChar (c : Char) : Char :=
  if 'A' ≤ c ∧ c ≤ 'Z' then Char.ofNat (c.toNat + 32) else c

def lcList (s : List Char) : List Char := s.map lcChar

/-- Exact prefix test returning the remainder after the prefix. -/
def stripPrefixExact : List Char → List Char → Option (List Char)
  | [], rest => some rest
  | _ :: _, [] => none
  | p :: ps, c :: cs => if c = p then stripPrefixExact ps cs else none

/-- Case-insensitive (ASCII) prefix test returning the consumed original
characters and the remainder. -/
def stripPrefixCI : List Char → List Char → Option (List Char × List Char)
  | [], rest => some ([], rest)
  | _ :: _, [] => none
  | p :: ps, c :: cs =>
    if lcChar c = lcChar p then
      match stripPrefixCI ps cs with
      | some (took, rest) => some (c :: took, rest)
      | none => none
    else none

/-- `String.prototype.includes`: substring containment. -/
def containsSub (needle : List Char) : List Char → Bool
  | [] => (stripPrefixExact needle []).isSome
  | c :: cs => (stripPrefixExact needle (c :: cs)).isSome || containsSub needle cs

/-- First occurrence of `needle`: returns the characters before it and the
characters after it (the needle removed). -/
def splitAtSub (needle : List Char) : List Char → Option (List Char × List Char)
  | [] =>
    match stripPrefixExact needle [] with
    | some rest => some ([], rest)
    | none => none
  | c :: cs =>
    match stripPrefixExact needle (c :: cs) with
    | some rest => some ([], rest)
    | none =>
      match splitAtSub needle cs with
      | some (pre, post) => some (c :: pre, post)
      | none => none

/-- Maximal whitespace run: `(run, rest)`. -/
def wsSplit (cs : List Char) : List Char × List Char :=
  (cs.takeWhile isJsWs, cs.dropWhile isJsWs)

/-- Maximal digit run: `(run, rest)`. -/
def digitSplit (cs : List Char) : List Char × List Char :=
  (cs.takeWhile Char.isDigit, cs.dropWhile Char.isDigit)

/-- `String.prototype.trim`. -/
def jsTrim (cs : List Char) : List Char :=
  ((cs.dropWhile isJsWs).reverse.dropWhile isJsWs).reverse

/-- JavaScript truthiness for strings: `a || b`. -/
def jsOr (a b : List Char) : List Char := if a = [] then b else a

/-- Split on `'\n'` (JavaScript `split('\n')`). -/
def splitOnNl : List Char → List (List Char)
  | [] => [[]]
  | '\n' :: rest => [] :: splitOnNl rest
  | c :: rest =>
    match splitOnNl rest with
    | [] => [[c]]
    | l :: ls => (c :: l) :: ls

/-- Split on the two-character separator `"\n\n"` (JavaScript `split('\n\n')`). -/
def splitOnNlNl : List Char → List (List Char)
  | [] => [[]]
  | '\n' :: '\n' :: rest => [] :: splitOnNlNl rest
  | c :: rest =>
    match splitOnNlNl rest with
    | [] => [[c]]
    | l :: ls => (c :: l) :: ls

/-- `join(' ')`. -/
def joinSpace : List (List Char) → List Char
  | [] => []
  | [l] => l
  | l :: ls => l ++ ' ' :: joinSpace ls

/-- JavaScript `parseInt` with radix 10 inferred (whitespace skip, optional
sign, leading decimal digits; hex prefix detection included for fidelity).
`none` models `NaN`. -/
def jsParseInt (s : List Char) : Option Int :=
  let s1 := s.dropWhile isJsWs
  let signed : Int × List Char :=
    match s1 with
    | '-' :: rest => (-1, rest)
    | '+' :: rest => (1, rest)
    | rest => (1, rest)
  let sgn := signed.1
  let body := signed.2
  match body with
  | '0' :: 'x' :: rest =>
    let hx := rest.takeWhile (fun c => c.isDigit ||
      ('a' ≤ lcChar c ∧ lcChar c ≤ 'f'))
    if hx = [] then none
    else some (sgn * (hx.foldl (fun acc c =>
      acc * 16 + (if c.isDigit then (c.toNat - '0'.toNat : Int)
                  else ((lcChar c).toNat - 'a'.toNat + 10 : Int))) 0))
  | '0' :: 'X' :: rest =>
    let hx := rest.takeWhile (fun c => c.isDigit ||
      ('a' ≤ lcChar c ∧ lcChar c ≤ 'f'))
    if hx = [] then none
    else some (sgn * (hx.foldl (fun acc c =>
      acc * 16 + (if c.isDigit then (c.toNat - '0'.toNat : Int)
                  else ((lcChar c).toNat - 'a'.toNat + 10 : Int))) 0))
  | _ =>
    let ds := body.takeWhile Char.isDigit
    if ds = [] then none
    else some (sgn * (ds.foldl (fun acc c => acc * 10 + (c.toNat - '0'.toNat : Int)) 0))

/-- Closing-delimiter search used by the paired-markup replaces
(`\*\*(.*?)\*\*`, `\*(.*?)\*`, and the inline-code pair): the lazy capture
cannot cross a line terminator, and stops at the first occurrence of the
delimiter.  Returns `(capture, rest-after-closer)`. -/
def findCloser (delim : List Char) : List Char → Option (List Char × List Char)
  | [] => none
  | c :: cs =>
    match stripPrefixExact delim (c :: cs) with
    | some rest => some ([], rest)
    | none =>
      if isDotC c then
        match findCloser delim cs with
        | some (content, rest) => some (c :: content, rest)
        | none => none
      else none

/-- Global replace of `delim (.*?) delim` by the capture, mirroring
`String.prototype.replace` with a global regex: scan left to right, on a
failed open advance one character.  `fuel ≥ length` makes it total. -/
def stripDelim (delim : List Char) : Nat → List Char → List Char
  | 0, cs => cs
  | _ + 1, [] => []
  | fuel + 1, c :: cs =>
    match stripPrefixExact delim (c :: cs) with
    | some rest =>
      match findCloser delim rest with
      | some (content, rest') => content ++ stripDelim delim fuel rest'
      | none => c :: stripDelim delim fuel cs
    | none => c :: stripDelim delim fuel cs

/-- Global replace of `#{1,6}\s*` by the empty string: every run of hashes is
removed six at a time, each removal also eating the following whitespace. -/
def headerStrip : Nat → List Char → List Char
  | 0, cs => cs
  | _ + 1, [] => []
  | fuel + 1, c :: cs =>
    if c = '#' then
      let hs := (c :: cs).takeWhile (fun d => d = '#')
      let rest := ((c :: cs).drop (min hs.length 6)).dropWhile isJsWs
      headerStrip fuel rest
    else c :: headerStrip fuel cs

/-- One attempt of the multiline-anchored `^\s*[-*+]\s*` at a line-start
position.  Both `\s*` are greedy and may cross newlines; the bullet must be
the first non-whitespace character.  Returns the remainder after the match
and whether the match ended immediately after a newline (so that the next
position is again a line start). -/
def listMatchAt (cs : List Char) : Option (List Char × Bool) :=
  match cs.dropWhile isJsWs with
  | c :: cs' =>
    if c = '-' || c = '*' || c = '+' then
      some (cs'.dropWhile isJsWs, (cs'.takeWhile isJsWs).getLast? = some '\n')
    else none
  | [] => none

/-- Global replace of `/^\s*[-*+]\s*/gm` by the empty string.  The flag
tracks whether the current position is a line start (offset 0 or just after
a newline); the anchored pattern can only fire there. -/
def listStrip : Nat → Bool → List Char → List Char
  | 0, _, cs => cs
  | _ + 1, _, [] => []
  | fuel + 1, atStart, c :: cs =>
    if atStart then
      match listMatchAt (c :: cs) with
      | some (rest, nl) => listStrip fuel nl rest
      | none => c :: listStrip fuel (c = '\n') cs
    else c :: listStrip fuel (c = '\n') cs

/-- `cleanMarkdown` from the source: bold, italic, inline code, headers and
leading list bullets removed in that order, then `trim()`. -/
def cleanMarkdown (text : List Char) : List Char :=
  let s1 := stripDelim ['*', '*'] text.length text
  let s2 := stripDelim ['*'] s1.length s1
  let s3 := stripDelim [Char.ofNat 96] s2.length s2
  let s4 := headerStrip s3.length s3
  let s5 := listStrip s4.length true s4
  jsTrim s5

/-- `ParsedReviewIssue.severity`. -/
inductive Severity where
  | critical | high | medium | low | info
deriving DecidableEq, Repr

/-- `ParsedReviewIssue.category`. -/
inductive Category where
  | security | performance | architecture | testing | documentation | general
deriving DecidableEq, Repr

/-- `ParsedReviewIssue`.  `line` is `Option Int` (`none` models `NaN`);
`column` is declared but never assigned by the source. -/
structure ParsedReviewIssue where
  line : Option Int
  column : Option Int
  severity : Severity
  category : Category
  title : List Char
  description : List Char
  suggestion : List Char
  agentPrompt : Option (List Char)
  file : Option (List Char)
deriving DecidableEq, Repr

/-- `ParsedReviewData`.  `codeContent` is the filename-to-source mapping,
modelled as an association list in insertion order with last-write-wins
assignment; `timestamp` defaults to a fixed placeholder (the source uses the
current clock time, which no claim depends on). -/
structure ParsedReviewData where
  title : List Char
  timestamp : List Char
  branch : List Char
  repository : List Char
  provider : List Char
  model : List Char
  summary : List Char
  issues : List ParsedReviewIssue
  codeContent : List (List Char × List Char)
  diffContent : List Char
deriving DecidableEq, Repr

/-- The severity emojis that appear in the source keyword sets. -/
def redCircle : Char := Char.ofNat 0x1F534
def orangeCircle : Char := Char.ofNat 0x1F7E0
def yellowCircle : Char := Char.ofNat 0x1F7E1
def blueCircle : Char := Char.ofNat 0x1F535
def infoChar : Char := Char.ofNat 0x2139
def vs16 : Char := Char.ofNat 0xFE0F
def crossMark : Char := Char.ofNat 0x274C
def orangeDiamond : Char := Char.ofNat 0x1F536

/-- `normalizeSeverity`: lower-case the token, then test keyword/emoji
substring membership in the fixed priority order; `none` when no set
matches (the match is then discarded). -/
def normalizeSeverity (severity : List Char) : Option Severity :=
  let normalized := lcList severity
  if containsSub "critical".data normalized || containsSub [redCircle] normalized then
    some Severity.critical
  else if containsSub "high".data normalized || containsSub [orangeCircle] normalized then
    some Severity.high
  else if containsSub "medium".data normalized || containsSub [yellowCircle] normalized then
    some Severity.medium
  else if containsSub "low".data normalized || containsSub [blueCircle] normalized then
    some Severity.low
  else if containsSub "info".data normalized || containsSub [infoChar, vs16] normalized then
    some Severity.info
  else none

/-- `inferSeverityFromContent`: same membership test on free text, but total,
defaulting to `info`. -/
def inferSeverityFromContent (content : List Char) : Severity :=
  let lowerContent := lcList content
  if containsSub "critical".data lowerContent || containsSub [redCircle] lowerContent then
    Severity.critical
  else if containsSub "high".data lowerContent || containsSub [orangeCircle] lowerContent then
    Severity.high
  else if containsSub "medium".data lowerContent || containsSub [yellowCircle] lowerContent then
    Severity.medium
  else if containsSub "low".data lowerContent || containsSub [blueCircle] lowerContent then
    Severity.low
  else Severity.info

/-- `inferCategoryFromContent`: keyword/emoji tables in the fixed source
order, defaulting to `general`. -/
def inferCategoryFromContent (content : List Char) : Category :=
  let l := lcList content
  if containsSub "security".data l || containsSub [Char.ofNat 0x1F6E1, vs16] l ||
     containsSub "vulnerability".data l || containsSub "auth".data l then
    Category.security
  else if containsSub "performance".data l || containsSub [Char.ofNat 0x26A1] l ||
     containsSub "optimization".data l || containsSub "slow".data l then
    Category.performance
  else if containsSub "architecture".data l || containsSub [Char.ofNat 0x1F3D7, vs16] l ||
     containsSub "design".data l || containsSub "pattern".data l then
    Category.architecture
  else if containsSub "test".data l || containsSub [Char.ofNat 0x1F9EA] l ||
     containsSub "coverage".data l then
    Category.testing
  else if containsSub "document".data l || containsSub [Char.ofNat 0x1F4DA] l ||
     containsSub "comment".data l || containsSub "docs".data l then
    Category.documentation
  else Category.general

/-- `severityOrder` from the issue sort comparator:
critical 0, high 1, medium 2, low 3, info 4. -/
def severityOrder : Severity → Int
  | Severity.critical => 0
  | Severity.high => 1
  | Severity.medium => 2
  | Severity.low => 3
  | Severity.info => 4

def firstSome {α : Type} (a b : Option α) : Option α :=
  match a with
  | some x => some x
  | none => b

/-- Non-global search for `LABEL(.+)` case-insensitively (the metadata
regexes): first position where the label matches and at least one
non-terminator character follows; the capture is the greedy rest of line. -/
def labelSearch (label : List Char) : List Char → Option (List Char)
  | [] => none
  | c :: cs =>
    match stripPrefixCI label (c :: cs) with
    | some (_, rest) =>
      let cap := rest.takeWhile isDotC
      if cap = [] then labelSearch label cs else some cap
    | none => labelSearch label cs

def extractTimestamp (content : List Char) : Option (List Char) :=
  firstSome (labelSearch "**Generated on**: ".data content)
    (firstSome (labelSearch "Generated on: ".data content)
      (labelSearch "**Date**: ".data content))

def extractBranch (content : List Char) : Option (List Char) :=
  firstSome (labelSearch "**Branch**: ".data content)
    (labelSearch "Branch: ".data content)

def extractRepository (content : List Char) : Option (List Char) :=
  firstSome (labelSearch "**Repository**: ".data content)
    (labelSearch "Repository: ".data content)

def extractProvider (content : List Char) : Option (List Char) :=
  firstSome (labelSearch "**AI Provider**: ".data content)
    (labelSearch "Provider: ".data content)

def extractModel (content : List Char) : Option (List Char) :=
  firstSome (labelSearch "**Model**: ".data content)
    (labelSearch "Model: ".data content)

/-- Attempt of `^#\s+(.+)$` just after a line-start `#`: `\s+` is greedy and
may cross newlines, backtracking down to one character until `.+` can start. -/
def titleTryDesc (rest : List Char) : Nat → Option (List Char)
  | 0 => none
  | k + 1 =>
    match rest.drop (k + 1) with
    | c :: cs => if isDotC c then some ((c :: cs).takeWhile isDotC) else titleTryDesc rest k
    | [] => titleTryDesc rest k

def titleTryAt (rest : List Char) : Option (List Char) :=
  let w := (rest.takeWhile isJsWs).length
  if w = 0 then none else titleTryDesc rest w

/-- `/^#\s+(.+)$/m`: first line-start `#` followed by whitespace and a
capturable rest of line. -/
def titleSearchAux : Bool → List Char → Option (List Char)
  | _, [] => none
  | atStart, c :: cs =>
    if atStart && c = '#' then
      match titleTryAt cs with
      | some cap => some cap
      | none => titleSearchAux (c = '\n') cs
    else titleSearchAux (c = '\n') cs

def extractTitle (content : List Char) : Option (List Char) :=
  titleSearchAux true content

/-- Lazy `([\s\S]*?)` up to the lookahead `(?=\n##|\n\*\*|$)` shared by the
summary and suggestion regexes. -/
def lazyUntilBreak : List Char → List Char
  | [] => []
  | c :: cs =>
    if (stripPrefixExact "\n##".data (c :: cs)).isSome ||
       (stripPrefixExact "\n**".data (c :: cs)).isSome then []
    else c :: lazyUntilBreak cs

/-- Index (within the whitespace run) of the last newline: `\s*` greedy
followed by a literal `\n` backtracks to the last newline of the run. -/
def lastNlIdx (run : List Char) : Option Nat :=
  (run.enum.filter (fun p => p.2 = '\n')).getLast?.map Prod.fst

/-- Attempt of `HEADER\s*\n([\s\S]*?)(?=\n##|\n\*\*|$)` at one position. -/
def summaryTryAt (header cs : List Char) : Option (List Char) :=
  match stripPrefixCI header cs with
  | some (_, rest) =>
    match lastNlIdx (rest.takeWhile isJsWs) with
    | some k => some (lazyUntilBreak (rest.drop (k + 1)))
    | none => none
  | none => none

def summarySearch (header : List Char) : List Char → Option (List Char)
  | [] => none
  | c :: cs =>
    match summaryTryAt header (c :: cs) with
    | some cap => some cap
    | none => summarySearch header cs

def summaryHeaderCapture (content : List Char) : Option (List Char) :=
  firstSome (summarySearch "## Summary".data content)
    (firstSome (summarySearch "## Review Summary".data content)
      (summarySearch "## Overview".data content))

/-- The heading-based summary: captured text cleaned and capped at 500. -/
def parseSummaryHeaderPart (content : List Char) : List Char :=
  match summaryHeaderCapture content with
  | some cap => (cleanMarkdown cap).take 500
  | none => []

/-- The fallback summary: second blank-line-separated paragraph, cleaned and
capped at 300 (the emptiness tests mirror JavaScript string truthiness). -/
def parseSummaryFallbackPart (content : List Char) : List Char :=
  match (splitOnNlNl content).get? 1 with
  | some p => if p ≠ [] then (cleanMarkdown p).take 300 else []
  | none => []

/-- `parseSummary`: the heading-based extraction wins when it produced a
non-empty summary, else the paragraph fallback runs. -/
def parseSummary (content : List Char) : List Char :=
  if parseSummaryHeaderPart content ≠ [] then parseSummaryHeaderPart content
  else parseSummaryFallbackPart content

/-- `(?:Suggestion|Fix|Solution|Recommendation):` at one position (the
alternatives are pairwise prefix-free, so at most one applies). -/
def sugLabelAt (cs : List Char) : Option (List Char) :=
  firstSome ((stripPrefixCI "Suggestion:".data cs).map Prod.snd)
    (firstSome ((stripPrefixCI "Fix:".data cs).map Prod.snd)
      (firstSome ((stripPrefixCI "Solution:".data cs).map Prod.snd)
        ((stripPrefixCI "Recommendation:".data cs).map Prod.snd)))

/-- `/(?:Suggestion|Fix|Solution|Recommendation):\s*([\s\S]*?)(?=\n\*\*|\n##|$)/i`. -/
def suggestionSearch : List Char → Option (List Char)
  | [] => none
  | c :: cs =>
    match sugLabelAt (c :: cs) with
    | some rest => some (lazyUntilBreak (rest.dropWhile isJsWs))
    | none => suggestionSearch cs

def robotFace : Char := Char.ofNat 0x1F916

/-- Backtick fence of `` ```? `` (two required backticks, optional third)
followed by `\s*` and the lazy capture up to the next double backtick. -/
def agentTicksAt (cs : List Char) : Option (List Char) :=
  let bt := Char.ofNat 96
  match cs with
  | c1 :: c2 :: c3 :: rest =>
    if c1 = bt && c2 = bt && c3 = bt then
      match splitAtSub [bt, bt] (rest.dropWhile isJsWs) with
      | some (pre, _) => some pre
      | none =>
        match splitAtSub [bt, bt] ((c3 :: rest).dropWhile isJsWs) with
        | some (pre, _) => some pre
        | none => none
    else if c1 = bt && c2 = bt then
      match splitAtSub [bt, bt] ((c3 :: rest).dropWhile isJsWs) with
      | some (pre, _) => some pre
      | none => none
    else none
  | [c1, c2] =>
    if c1 = bt && c2 = bt then
      match splitAtSub [bt, bt] [] with
      | some (pre, _) => some pre
      | none => none
    else none
  | _ => none

/-- `/(?:Agent Prompt|🤖):\s*```?\s*([\s\S]*?)```?/i`. -/
def agentPromptSearch : List Char → Option (List Char)
  | [] => none
  | c :: cs =>
    let here :=
      match firstSome ((stripPrefixCI "Agent Prompt:".data (c :: cs)).map Prod.snd)
        ((stripPrefixExact (robotFace :: ':' :: []) (c :: cs))) with
      | some rest => agentTicksAt (rest.dropWhile isJsWs)
      | none => none
    match here with
    | some cap => some cap
    | none => agentPromptSearch cs

/-- Existence of a match of `/Context:.*?\nTask:.*?\n/s` (the second
agent-prompt regex, which has no capture group: a match makes the source
call `.trim()` on `undefined` and throw). -/
def hasContextTask : List Char → Bool
  | [] => false
  | c :: cs =>
    (match stripPrefixExact "Context:".data (c :: cs) with
     | some rest =>
       match splitAtSub "\nTask:".data rest with
       | some (_, post) => post.contains '\n'
       | none => false
     | none => false) || hasContextTask cs

/-- `content.substring(max(0, idx-200), min(len, idx+1000))`. -/
def ctxWindow (content : List Char) (idx : Nat) : List Char :=
  let start := idx - 200
  ((content.drop start).take (min content.length (idx + 1000) - start))

/-- The fields mined from a context window by `extractIssueContext`. -/
structure IssueContextParts where
  description : List Char
  suggestion : List Char
  agentPrompt : Option (List Char)
  category : Category
deriving DecidableEq, Repr

/-- The description mined from a context window: lines 1–4 after the match
line, keeping non-blank lines that do not open with a bold or heading
marker, joined and capped at 300. -/
def ctxDescription (context : List Char) : List Char :=
  (joinSpace ((((splitOnNl context).drop 1).take 4).filter (fun line =>
    jsTrim line ≠ [] &&
    !(stripPrefixExact "**".data line).isSome &&
    !(stripPrefixExact "#".data line).isSome))).take 300

/-- The suggestion mined from a context window: first label match, cleaned
and capped at 400. -/
def ctxSuggestion (context : List Char) : List Char :=
  match suggestionSearch context with
  | some cap => (cleanMarkdown cap).take 400
  | none => []

/-- The agent-prompt step: `some (some text)` when the first regex matches,
`none` when only the group-free second regex matches (the source then calls
`.trim()` on `undefined` and throws), `some none` otherwise. -/
def ctxAgentStep (context : List Char) : Option (Option (List Char)) :=
  match agentPromptSearch context with
  | some cap => some (some (jsTrim cap))
  | none => if hasContextTask context then none else some none

/-- `extractIssueContext`.  Returns `none` exactly when the source would
throw (second agent-prompt regex matching with no capture group), which the
caller's `try/catch` turns into a discarded issue. -/
def extractIssueContext (context title : List Char) : Option IssueContextParts :=
  match ctxAgentStep context with
  | none => none
  | some agentPrompt =>
    some { description := jsOr (ctxDescription context) "No description available".data
           suggestion := jsOr (ctxSuggestion context) "Review and address this issue".data
           agentPrompt := agentPrompt
           category := inferCategoryFromContent (context ++ title) }

/-- A regex match: character offset of the match start plus the list of
captured groups (every group of the four issue patterns always
participates). -/
structure RawMatch where
  index : Nat
  groups : List (List Char)
deriving DecidableEq, Repr

/-- `(CRITICAL|HIGH|MEDIUM|LOW|INFO)` case-insensitively; the alternatives
are pairwise prefix-free.  Returns the matched original characters. -/
def sevAlt (cs : List Char) : Option (List Char × List Char) :=
  firstSome (stripPrefixCI "CRITICAL".data cs)
    (firstSome (stripPrefixCI "HIGH".data cs)
      (firstSome (stripPrefixCI "MEDIUM".data cs)
        (firstSome (stripPrefixCI "LOW".data cs) (stripPrefixCI "INFO".data cs))))

/-- `\s*\((?:Line\s+)?(\d+)\)\*\*`: the optional `Line` group is taken
greedily and abandoned when no whitespace-plus-digit follows; returns the
digit capture and the remainder. -/
def lineParenClose (cs : List Char) : Option (List Char × List Char) :=
  match cs.dropWhile isJsWs with
  | '(' :: r2 =>
    let r3 :=
      match stripPrefixCI "Line".data r2 with
      | some (_, rest) =>
        if rest.takeWhile isJsWs ≠ [] ∧ ((rest.dropWhile isJsWs).headD ' ').isDigit then
          rest.dropWhile isJsWs
        else r2
      | none => r2
    let ds := r3.takeWhile Char.isDigit
    if ds = [] then none
    else
      match r3.dropWhile Char.isDigit with
      | ')' :: '*' :: '*' :: r4 => some (ds, r4)
      | _ => none
  | _ => none

/-- `\s*\(([^:]+):(\d+)\)`: `[^:]+` is greedy up to the first colon (and may
cross newlines).  Returns `(file, digits, remainder)`. -/
def fileParenClose (cs : List Char) : Option (List Char × List Char × List Char) :=
  match cs.dropWhile isJsWs with
  | '(' :: r2 =>
    let file := r2.takeWhile (fun c => !(c = ':'))
    if file = [] then none
    else
      match r2.dropWhile (fun c => !(c = ':')) with
      | ':' :: r3 =>
        let ds := r3.takeWhile Char.isDigit
        if ds = [] then none
        else
          match r3.dropWhile Char.isDigit with
          | ')' :: r4 => some (file, ds, r4)
          | _ => none
      | _ => none
  | _ => none

/-- Lazy `(.+?)` (at least one non-terminator character) followed by a
closing parser: grow the capture one character at a time, testing the close
(which may itself include the whole rest of the pattern) after each step. -/
def titleLazy {α : Type} (close : List Char → Option α) :
    List Char → List Char → Option (List Char × α)
  | _, [] => none
  | acc, c :: cs =>
    if isDotC c then
      match close cs with
      | some res => some (acc ++ [c], res)
      | none => titleLazy close (acc ++ [c]) cs
    else none

/-- Pattern 1, `\*\*\[?(SEV)\]?\s+(.+?)\s*\((?:Line\s+)?(\d+)\)\*\*`:
descending loop over the amount of whitespace taken by the greedy `\s+`. -/
def p1WsDesc (sev r4 : List Char) : Nat → Option (List (List Char) × List Char)
  | 0 => none
  | k + 1 =>
    match titleLazy lineParenClose [] (r4.drop (k + 1)) with
    | some (title, (ds, rest)) => some ([sev, title, ds], rest)
    | none => p1WsDesc sev r4 k

def p1TryAt (cs : List Char) : Option (List (List Char) × List Char) :=
  match cs with
  | '*' :: '*' :: r1 =>
    let r2 := match r1 with | '[' :: r => r | _ => r1
    match sevAlt r2 with
    | some (sev, r3) =>
      let r4 := match r3 with | ']' :: r => r | _ => r3
      p1WsDesc sev r4 ((r4.takeWhile isJsWs).length)
    | none => none
  | _ => none

/-- The emoji class of pattern 2, `[🔴🟠🟡🔵ℹ️]`, at scalar level. -/
def p2Class (c : Char) : Bool :=
  c = redCircle || c = orangeCircle || c = yellowCircle || c = blueCircle ||
  c = infoChar || c = vs16

/-- Pattern 2, `###\s*[🔴🟠🟡🔵ℹ️]?\s*(SEV)\s*-?\s*(.+?)\s*\((file):(\d+)\)`. -/
def p2TryAt (cs : List Char) : Option (List (List Char) × List Char) :=
  match cs with
  | '#' :: '#' :: '#' :: r1 =>
    let r2 := r1.dropWhile isJsWs
    let r3 :=
      match r2 with
      | c :: r => if p2Class c then r.dropWhile isJsWs else r2
      | [] => r2
    match sevAlt r3 with
    | some (sev, r4) =>
      let r5 := r4.dropWhile isJsWs
      let res :=
        match r5 with
        | '-' :: r6 =>
          match titleLazy fileParenClose [] (r6.dropWhile isJsWs) with
          | some x => some x
          | none => titleLazy fileParenClose [] r5
        | _ => titleLazy fileParenClose [] r5
      match res with
      | some (title, (file, ds, rest)) => some ([sev, title, file, ds], rest)
      | none => none
    | none => none
  | _ => none

/-- The emoji class of pattern 3, `[❌🔶🟡🔵ℹ️]`, at scalar level. -/
def p3Class (c : Char) : Bool :=
  c = crossMark || c = orangeDiamond || c = yellowCircle || c = blueCircle ||
  c = infoChar || c = vs16

/-- `\s*(.+)` with the greedy `\s*` backtracking down (`k` consumed
whitespace characters, descending to zero) until `.+` can start. -/
def p3WsDesc (r : List Char) : Nat → Option (List Char × List Char)
  | 0 =>
    match r with
    | c :: _ => if isDotC c then some (r.takeWhile isDotC, r.dropWhile isDotC) else none
    | [] => none
  | k + 1 =>
    match r.drop (k + 1) with
    | c :: _ =>
      if isDotC c then some ((r.drop (k + 1)).takeWhile isDotC, (r.drop (k + 1)).dropWhile isDotC)
      else p3WsDesc r k
    | [] => p3WsDesc r k

/-- `:?\s*(.+)` at the end of pattern 3 (the optional colon is tried
consumed first). -/
def p3Tail (cs : List Char) : Option (List Char × List Char) :=
  match cs with
  | ':' :: r1 =>
    match p3WsDesc r1 ((r1.takeWhile isJsWs).length) with
    | some x => some x
    | none => p3WsDesc cs ((cs.takeWhile isJsWs).length)
  | _ => p3WsDesc cs ((cs.takeWhile isJsWs).length)

/-- The close of pattern 3 after the lazy title: `\s*\((?:Line\s+)?(\d+)\)\*\*:?\s*(.+)`. -/
def p3Close (cs : List Char) : Option (List Char × List Char × List Char) :=
  match lineParenClose cs with
  | some (ds, r3) =>
    match p3Tail r3 with
    | some (desc, rest) => some (ds, desc, rest)
    | none => none
  | none => none

/-- Pattern 3, `[❌🔶🟡🔵ℹ️]\s*\*\*(.+?)\s*\((?:Line\s+)?(\d+)\)\*\*:?\s*(.+)`.
Its three capture groups are title-text, digits, and trailing description —
which `extractIssueDetails` destructures as severity, title and line. -/
def p3TryAt (cs : List Char) : Option (List (List Char) × List Char) :=
  match cs with
  | c :: r1 =>
    if p3Class c then
      match r1.dropWhile isJsWs with
      | '*' :: '*' :: r2 =>
        match titleLazy p3Close [] r2 with
        | some (title, (ds, desc, rest)) => some ([title, ds, desc], rest)
        | none => none
      | _ => none
    else none
  | [] => none

/-- The close of pattern 4 after the lazy title: `\s*-?\s*Line\s+(\d+)`. -/
def p4Close (cs : List Char) : Option (List Char × List Char) :=
  let tryLine : List Char → Option (List Char × List Char) := fun r =>
    match stripPrefixCI "Line".data r with
    | some (_, rest) =>
      if rest.takeWhile isJsWs = [] then none
      else
        let ds := (rest.dropWhile isJsWs).takeWhile Char.isDigit
        if ds = [] then none
        else some (ds, (rest.dropWhile isJsWs).dropWhile Char.isDigit)
    | none => none
  match cs.dropWhile isJsWs with
  | '-' :: r2 => tryLine (r2.dropWhile isJsWs)
  | r1 => tryLine r1

/-- `\s*(.+?)...`: descending loop over the greedy `\s*` before the lazy
title of pattern 4. -/
def p4WsDesc (r : List Char) : Nat → Option (List Char × (List Char × List Char))
  | 0 => titleLazy p4Close [] r
  | k + 1 =>
    match titleLazy p4Close [] (r.drop (k + 1)) with
    | some x => some x
    | none => p4WsDesc r k

/-- Pattern 4, `\*\*(SEV)\*\*:?\s*(.+?)\s*-?\s*Line\s+(\d+)`. -/
def p4TryAt (cs : List Char) : Option (List (List Char) × List Char) :=
  match cs with
  | '*' :: '*' :: r1 =>
    match sevAlt r1 with
    | some (sev, r2) =>
      match r2 with
      | '*' :: '*' :: r3 =>
        let res :=
          match r3 with
          | ':' :: r4 =>
            match p4WsDesc r4 ((r4.takeWhile isJsWs).length) with
            | some x => some x
            | none => p4WsDesc r3 ((r3.takeWhile isJsWs).length)
          | _ => p4WsDesc r3 ((r3.takeWhile isJsWs).length)
        match res with
        | some (title, (ds, rest)) => some ([sev, title, ds], rest)
        | none => none
      | _ => none
    | none => none
  | _ => none

/-- Global `exec` loop: find matches left to right, resuming after each
match (`lastIndex`), advancing one position on failure.  `tryAt` returns the
captured groups and the remainder after the match. -/
def scanDriver (tryAt : List Char → Option (List (List Char) × List Char)) :
    Nat → Nat → List Char → List RawMatch
  | 0, _, _ => []
  | _ + 1, _, [] => []
  | fuel + 1, pos, c :: cs =>
    match tryAt (c :: cs) with
    | some (gs, rest) =>
      let k := (c :: cs).length - rest.length
      { index := pos, groups := gs } :: scanDriver tryAt fuel (pos + k) (List.drop (k - 1) cs)
    | none => scanDriver tryAt fuel (pos + 1) cs

/-- All matches of the four issue patterns, in strategy order (the source
iterates `issuePatterns` and collects every global match of each). -/
def allPatternMatches (content : List Char) : List RawMatch :=
  scanDriver p1TryAt (content.length + 1) 0 content ++
  scanDriver p2TryAt (content.length + 1) 0 content ++
  scanDriver p3TryAt (content.length + 1) 0 content ++
  scanDriver p4TryAt (content.length + 1) 0 content

/-- The issue constructed by `extractIssueDetails` from destructured match
groups, after severity normalization and context mining succeed.  `column`
is never assigned. -/
def buildPatternIssue (content : List Char) (idx : Nat)
    (sev title lineStr : List Char) (file : Option (List Char)) :
    Option ParsedReviewIssue :=
  match normalizeSeverity sev with
  | none => none
  | some ns =>
    match extractIssueContext (ctxWindow content idx) title with
    | none => none
    | some parts =>
      some { line := jsParseInt lineStr
             column := none
             severity := ns
             category := parts.category
             title := cleanMarkdown title
             description := jsOr parts.description "No description available".data
             suggestion := jsOr parts.suggestion "No specific suggestion provided".data
             agentPrompt := parts.agentPrompt
             file := file }

/-- `extractIssueDetails`: destructure by group count (three groups for
patterns 1, 3, 4; four for pattern 2), `null` on anything else or on a
caught exception. -/
def extractIssueDetails (content : List Char) (m : RawMatch) : Option ParsedReviewIssue :=
  match m.groups with
  | [sev, title, lineStr] => buildPatternIssue content m.index sev title lineStr none
  | [sev, title, file, lineStr] => buildPatternIssue content m.index sev title lineStr (some file)
  | _ => none

/-- The issues collected by the pattern-matching loop of `parseIssues`. -/
def rawPatternIssues (content : List Char) : List ParsedReviewIssue :=
  (allPatternMatches content).filterMap (extractIssueDetails content)

/-- `content.split(/\n(?=##\s)/)`: split at newlines followed by `##` and a
whitespace character (the lookahead is not consumed). -/
def splitSectionsAux : List Char → List (List Char)
  | [] => [[]]
  | '\n' :: rest =>
    (match rest with
     | '#' :: '#' :: c :: _ =>
       if isJsWs c then [] :: splitSectionsAux rest
       else
         match splitSectionsAux rest with
         | [] => [['\n']]
         | l :: ls => ('\n' :: l) :: ls
     | _ =>
       match splitSectionsAux rest with
       | [] => [['\n']]
       | l :: ls => ('\n' :: l) :: ls)
  | c :: rest =>
    match splitSectionsAux rest with
    | [] => [[c]]
    | l :: ls => (c :: l) :: ls

def splitSections (content : List Char) : List (List Char) :=
  splitSectionsAux content

/-- Severity indicators used by the fallback scanner. -/
def hasSeverityIndicator (s : List Char) : Bool :=
  containsSub "critical".data (lcList s) || containsSub "high".data (lcList s) ||
  containsSub "medium".data (lcList s) || containsSub "low".data (lcList s) ||
  containsSub [redCircle] s || containsSub [orangeCircle] s ||
  containsSub [yellowCircle] s || containsSub [blueCircle] s

/-- One attempt of `/line\s+(\d+)/i`: the full matched text is returned
(the fallback scanner later strips its non-digits). -/
def lineMentionAt (cs : List Char) : Option (List Char × List Char) :=
  match stripPrefixCI "line".data cs with
  | some (took, rest) =>
    let ws := rest.takeWhile isJsWs
    if ws = [] then none
    else
      let ds := (rest.dropWhile isJsWs).takeWhile Char.isDigit
      if ds = [] then none
      else some (took ++ ws ++ ds, (rest.dropWhile isJsWs).dropWhile Char.isDigit)
  | none => none

/-- `section.match(/line\s+(\d+)/gi)`: all matches. -/
def scanLineMentions : Nat → List Char → List (List Char)
  | 0, _ => []
  | _ + 1, [] => []
  | fuel + 1, c :: cs =>
    match lineMentionAt (c :: cs) with
    | some (took, rest) =>
      let k := (c :: cs).length - rest.length
      took :: scanLineMentions fuel (List.drop (k - 1) cs)
    | none => scanLineMentions fuel cs

/-- `extractTitleFromSection`: first line whose trimmed form starts with
`##` or `**`, cleaned; empty otherwise. -/
def extractTitleFromSection (s : List Char) : List Char :=
  match (splitOnNl s).find? (fun line =>
    (stripPrefixExact "##".data (jsTrim line)).isSome ||
    (stripPrefixExact "**".data (jsTrim line)).isSome) with
  | some line => cleanMarkdown (jsTrim line)
  | none => []

/-- `extractDescriptionFromSection`: first three kept lines joined and capped
at 200 (the filter tests the raw line, not the trimmed one). -/
def extractDescriptionFromSection (s : List Char) : List Char :=
  (joinSpace (((splitOnNl s).filter (fun line =>
    jsTrim line ≠ [] &&
    !(stripPrefixExact "#".data line).isSome &&
    !(stripPrefixExact "**".data line).isSome)).take 3)).take 200

/-- `/(?:suggestion|fix|solution):\s*(.*)/i` — note: no `Recommendation`
here, the capture may be empty, and it runs to the end of the line. -/
def sugSectionLabelAt (cs : List Char) : Option (List Char) :=
  firstSome ((stripPrefixCI "suggestion:".data cs).map Prod.snd)
    (firstSome ((stripPrefixCI "fix:".data cs).map Prod.snd)
      ((stripPrefixCI "solution:".data cs).map Prod.snd))

def sugSectionSearch : List Char → Option (List Char)
  | [] => none
  | c :: cs =>
    match sugSectionLabelAt (c :: cs) with
    | some rest => some ((rest.dropWhile isJsWs).takeWhile isDotC)
    | none => sugSectionSearch cs

/-- `extractSuggestionFromSection`. -/
def extractSuggestionFromSection (s : List Char) : List Char :=
  match sugSectionSearch s with
  | some cap => cap.take 200
  | none => []

/-- The issue synthesized by the fallback scanner for one `line N` mention
(only when the parsed number is positive). -/
def mkFallbackIssue (s lm : List Char) : Option ParsedReviewIssue :=
  match jsParseInt (lm.filter Char.isDigit) with
  | none => none
  | some n =>
    if 0 < n then
      some { line := some n
             column := none
             severity := inferSeverityFromContent s
             category := inferCategoryFromContent s
             title := jsOr (extractTitleFromSection s)
               ("Issue at line ".data ++ (toString n).data)
             description := jsOr (extractDescriptionFromSection s)
               "Issue found in code review".data
             suggestion := jsOr (extractSuggestionFromSection s)
               "Review and address this issue".data
             agentPrompt := none
             file := none }
    else none

/-- `parseStructuredIssues` (the fallback section scanner). -/
def parseStructuredIssues (content : List Char) : List ParsedReviewIssue :=
  (splitSections content).flatMap (fun s =>
    if hasSeverityIndicator s then
      (scanLineMentions (s.length + 1) s).filterMap (mkFallbackIssue s)
    else [])

/-- `a.line - b.line` under the `NaN` model: a subtraction involving `NaN`
yields `NaN`, which the sort specification then treats as zero. -/
def lineSub : Option Int → Option Int → Int
  | some x, some y => x - y
  | _, _ => 0

/-- The sort comparator of `parseIssues`: severity rank difference, then
line difference. -/
def issueCmp (a b : ParsedReviewIssue) : Int :=
  let d := severityOrder a.severity - severityOrder b.severity
  if d ≠ 0 then d else lineSub a.line b.line

/-- Stable comparator sort modelling `Array.prototype.sort` (stable since
ES2019): each element is inserted after every element it does not strictly
precede. -/
def insertIss (x : ParsedReviewIssue) : List ParsedReviewIssue → List ParsedReviewIssue
  | [] => [x]
  | y :: ys => if issueCmp x y < 0 then x :: y :: ys else y :: insertIss x ys

def sortIssues (l : List ParsedReviewIssue) : List ParsedReviewIssue :=
  l.foldl (fun acc x => insertIss x acc) []

/-- `parseIssues`: the four pattern strategies, the fallback scanner when
they produce nothing, then the imposed sort. -/
def parseIssues (content : List Char) : List ParsedReviewIssue :=
  let base := rawPatternIssues content
  sortIssues (if base = [] then parseStructuredIssues content else base)

/-- Leftmost-match search for a fenced block `OPEN([\s\S]*?)\n```: positions
where the opening matches but no closer follows are skipped, as the regex
engine does. -/
def fencedSearch (openTok : List Char) : List Char → Option (List Char)
  | [] => none
  | c :: cs =>
    match stripPrefixExact openTok (c :: cs) with
    | some rest =>
      match splitAtSub "\n```".data rest with
      | some (pre, _) => some pre
      | none => fencedSearch openTok cs
    | none => fencedSearch openTok cs

/-- The diff block: first ```` ```diff ````-labelled fence, else the first
bare fence. -/
def parseCodeDiff (content : List Char) : Option (List Char) :=
  firstSome (fencedSearch "```diff\n".data content)
    (fencedSearch "```\n".data content)

/-- One position of `\s*(?:\/\/\s*(.+))?\n([\s\S]*?)\n``` ` after the
optional language word, at `k` characters of greedy whitespace consumed:
either the filename comment group participates, or the literal newline must
sit exactly at the backtrack point. -/
def codeBlockAtK (r2 : List Char) (k : Nat) :
    Option (Option (List Char) × List Char × List Char) :=
  let rk := r2.drop k
  match stripPrefixExact "//".data rk with
  | some r3 =>
    let cap := (r3.dropWhile isJsWs).takeWhile isDotC
    if cap = [] then none
    else
      match (r3.dropWhile isJsWs).dropWhile isDotC with
      | '\n' :: r4 =>
        match splitAtSub "\n```".data r4 with
        | some (code, r5) => some (some cap, code, r5)
        | none => none
      | _ => none
  | none =>
    match rk with
    | '\n' :: r4 =>
      match splitAtSub "\n```".data r4 with
      | some (code, r5) => some (none, code, r5)
      | none => none
    | _ => none

def codeBlockKDesc (r2 : List Char) : Nat → Option (Option (List Char) × List Char × List Char)
  | 0 => codeBlockAtK r2 0
  | k + 1 =>
    match codeBlockAtK r2 (k + 1) with
    | some x => some x
    | none => codeBlockKDesc r2 k

/-- One attempt of the global code-block pattern
`` ```(\w+)?\s*(?:\/\/\s*(.+))?\n([\s\S]*?)\n``` ``. -/
def codeBlockTryAt (cs : List Char) :
    Option ((Option (List Char) × Option (List Char) × List Char) × List Char) :=
  match stripPrefixExact "```".data cs with
  | some r1 =>
    let lang := r1.takeWhile isWordC
    let r2 := r1.dropWhile isWordC
    match codeBlockKDesc r2 ((r2.takeWhile isJsWs).length) with
    | some (file, code, rest) =>
      some ((if lang = [] then none else some lang, file, code), rest)
    | none => none
  | none => none

/-- Generic global-scan driver (like `scanDriver` but without offsets). -/
def scanGeneric {α : Type} (tryAt : List Char → Option (α × List Char)) :
    Nat → List Char → List α
  | 0, _ => []
  | _ + 1, [] => []
  | fuel + 1, c :: cs =>
    match tryAt (c :: cs) with
    | some (a, rest) =>
      let k := (c :: cs).length - rest.length
      a :: scanGeneric tryAt fuel (List.drop (k - 1) cs)
    | none => scanGeneric tryAt fuel cs

/-- `getExtensionForLanguage`. -/
def langExtTable : List (List Char × List Char) :=
  [("javascript".data, "js".data), ("typescript".data, "ts".data),
   ("python".data, "py".data), ("java".data, "java".data),
   ("go".data, "go".data), ("rust".data, "rs".data),
   ("php".data, "php".data), ("ruby".data, "rb".data),
   ("css".data, "css".data), ("html".data, "html".data),
   ("json".data, "json".data), ("yaml".data, "yml".data),
   ("sql".data, "sql".data)]

def getExtensionForLanguage (language : List Char) : List Char :=
  match langExtTable.find? (fun p => p.1 = lcList language) with
  | some p => p.2
  | none => "txt".data

/-- JavaScript object property assignment: update in place, else append. -/
def assocSet (m : List (List Char × List Char)) (k v : List Char) :
    List (List Char × List Char) :=
  if m.any (fun p => p.1 = k) then
    m.map (fun p => if p.1 = k then (k, v) else p)
  else m ++ [(k, v)]

/-- The `codeContent` map built by `parseCodeContent`: filename comments win,
`diff`-labelled blocks are skipped, other labelled blocks get a synthesized
`code.<ext>` name. -/
def parseCodeContent (content : List Char) : List (List Char × List Char) :=
  (scanGeneric codeBlockTryAt (content.length + 1) content).foldl
    (fun m e =>
      match e with
      | (_, some fileName, code) => assocSet m fileName code
      | (some lang, none, code) =>
        if lang = "diff".data then m
        else assocSet m ("code.".data ++ getExtensionForLanguage lang) code
      | (none, none, _) => m) []

/-- `parseReviewContent`: assemble the document.  The model takes no
`fileName` argument (so `title` defaults to the source literal) and uses
the empty string for the clock-time timestamp default, which no claim
depends on. -/
def parseReviewContent (content : List Char) : ParsedReviewData :=
  { title :=
      match extractTitle content with
      | some cap => jsTrim cap
      | none => "AI Code Review".data
    timestamp :=
      match extractTimestamp content with
      | some cap => jsTrim cap
      | none => []
    branch :=
      match extractBranch content with
      | some cap => jsTrim cap
      | none => "main".data
    repository :=
      match extractRepository content with
      | some cap => jsTrim cap
      | none => "unknown".data
    provider :=
      match extractProvider content with
      | some cap => jsTrim cap
      | none => "AI".data
    model :=
      match extractModel content with
      | some cap => jsTrim cap
      | none => "unknown".data
    summary := parseSummary content
    issues := parseIssues content
    codeContent := parseCodeContent content
    diffContent :=
      match parseCodeDiff content with
      | some d => d
      | none => [] }

/-- JavaScript `<=` on the numeric line field: comparisons involving `NaN`
are false. -/
def jsNumLe : Option Int → Option Int → Prop
  | some x, some y => x ≤ y
  | _, _ => False

instance (a b : Option Int) : Decidable (jsNumLe a b) :=
  match a, b with
  | some x, some y => inferInstanceAs (Decidable (x ≤ y))
  | some _, none => Decidable.isFalse id
  | none, some _ => Decidable.isFalse id
  | none, none => Decidable.isFalse id

/-- The order imposed by the comparator. -/
def issueLe (a b : ParsedReviewIssue) : Prop := issueCmp a b ≤ 0

/-- Markup-free text: none of the characters the five cleaning passes can
fire on (asterisk, backtick, hash, and the bullet characters). -/
def mdPlain (s : List Char) : Prop :=
  ∀ c ∈ s, c ≠ '*' ∧ c ≠ Char.ofNat 96 ∧ c ≠ '#' ∧ c ≠ '-' ∧ c ≠ '+'

/-- The fallback-activation input of the specification. -/
def findingsInput : List Char :=
  "## Findings\nCritical issue here, see line 12 for details".data

/-- The one issue the engine emits for `findingsInput` (fallback scanner:
line mention 12, severity from the section keyword, title from the section
heading, description from the plain line, placeholder suggestion). -/
def findingsIssue : ParsedReviewIssue :=
  { line := some 12
    column := none
    severity := Severity.critical
    category := Category.general
    title := "Findings".data
    description := "Critical issue here, see line 12 for details".data
    suggestion := "Review and address this issue".data
    agentPrompt := none
    file := none }

/-- Input whose pattern-3 match misaligns the capture groups: the trailing
description lands in the line slot, `parseInt` yields `NaN`. -/
def c1cexInput : List Char :=
  "**[CRITICAL] A (Line 5)**\n❌ **Critical B (Line 7)**: bad stuff".data

/-- The shape of the three issues parsed from `c1cexInput`: all critical,
same description and placeholder suggestion, differing in line and title. -/
def c1cexIssue (l : Option Int) (t : List Char) : ParsedReviewIssue :=
  { line := l
    column := none
    severity := Severity.critical
    category := Category.general
    title := t
    description := "❌ **Critical B (Line 7)**: bad stuff".data
    suggestion := "Review and address this issue".data
    agentPrompt := none
    file := none }

/-- Pattern 1 accepts an explicit `(Line 0)`: `parseInt` returns 0 and no
positivity check runs on the pattern-matcher path. -/
def c3cexInput : List Char := "**[CRITICAL] Foo (Line 0)**".data

/-- Input whose mined description retains markdown (a hash character):
the description is truncated raw, not cleaned. -/
def c4cexInput : List Char := "**[CRITICAL] Foo (Line 5)**\nsee bug #42 here".data

/-- The two-fenced-blocks scenario input. -/
def c7Input : List Char :=
  "```diff\n+foo\n```\n```js // utils.js\nconst x=1;\n```".data

/-- A pattern-3 match whose severity token (the real title text) is in no
keyword set: the match is discarded, and the fallback scanner finds no
severity indicator either. -/
def moderateInput : List Char := "❌ **Moderate problem (Line 3)**: desc".data

/-! ## Generic list lemmas used by the development -/

theorem dropWhile_head_false {p : Char → Bool} {l : List Char} {c : Char}
    {cs : List Char} (h : List.dropWhile p l = c :: cs) : p c = false := by
  induction l with
  | nil => simp [List.dropWhile] at h
  | cons a l' ih =>
    rw [List.dropWhile_cons] at h
    split at h
    · exact ih h
    · injection h with h1 _
      subst h1
      simp_all

theorem dropWhile_eq_self {p : Char → Bool} {l : List Char}
    (h : ∀ c cs, l = c :: cs → p c = false) : List.dropWhile p l = l := by
  cases l with
  | nil => rfl
  | cons a l' => rw [List.dropWhile_cons, h a l' rfl]; simp

theorem dropWhile_append_self (p : Char → Bool) (l : List Char) :
    ∃ t, t ++ List.dropWhile p l = l := by
  induction l with
  | nil => exact ⟨[], rfl⟩
  | cons a l' ih =>
    rw [List.dropWhile_cons]
    split
    · rcases ih with ⟨t, ht⟩
      exact ⟨a :: t, by simp [ht]⟩
    · exact ⟨[], rfl⟩

theorem mem_of_mem_dropWhile {p : Char → Bool} {l : List Char} {c : Char}
    (h : c ∈ List.dropWhile p l) : c ∈ l := by
  rcases dropWhile_append_self p l with ⟨t, ht⟩
  exact ht ▸ List.mem_append_right t h

/-! ## The markdown cleaner on whitespace boundaries and markup-free text -/

theorem jsTrim_idem (cs : List Char) : jsTrim (jsTrim cs) = jsTrim cs := by
  unfold jsTrim
  have h1 : List.dropWhile isJsWs
      ((List.dropWhile isJsWs (List.dropWhile isJsWs cs).reverse).reverse) =
      (List.dropWhile isJsWs (List.dropWhile isJsWs cs).reverse).reverse := by
    apply dropWhile_eq_self
    intro c cs' hc
    rcases dropWhile_append_self isJsWs (List.dropWhile isJsWs cs).reverse with ⟨t, ht⟩
    have hu2 : List.dropWhile isJsWs cs =
        (List.dropWhile isJsWs (List.dropWhile isJsWs cs).reverse).reverse ++ t.reverse := by
      have h3 := congrArg List.reverse ht
      simpa using h3.symm
    rw [hc] at hu2
    exact dropWhile_head_false (by rw [hu2]; rfl)
  rw [h1, List.reverse_reverse]
  have h2 : List.dropWhile isJsWs (List.dropWhile isJsWs (List.dropWhile isJsWs cs).reverse) =
      List.dropWhile isJsWs (List.dropWhile isJsWs cs).reverse := by
    apply dropWhile_eq_self
    intro c cs' hc
    exact dropWhile_head_false hc
  rw [h2]

theorem stripDelim_id {d : Char} {ds : List Char} {cs : List Char} {fuel : Nat}
    (h : ∀ c ∈ cs, c ≠ d) : stripDelim (d :: ds) fuel cs = cs := by
  induction fuel generalizing cs with
  | zero => rfl
  | succ f ih =>
    cases cs with
    | nil => rfl
    | cons c cs' =>
      have hpre : stripPrefixExact (d :: ds) (c :: cs') = none := by
        rw [stripPrefixExact, if_neg]
        exact h c (List.mem_cons_self c cs')
      simp only [stripDelim, hpre]
      exact congrArg (c :: ·) (ih (fun x hx => h x (List.mem_cons_of_mem c hx)))

theorem headerStrip_id {cs : List Char} {fuel : Nat}
    (h : ∀ c ∈ cs, c ≠ '#') : headerStrip fuel cs = cs := by
  induction fuel generalizing cs with
  | zero => rfl
  | succ f ih =>
    cases cs with
    | nil => rfl
    | cons c cs' =>
      have hne : ¬ (c = '#') := h c (List.mem_cons_self c cs')
      simp only [headerStrip, if_neg hne]
      exact congrArg (c :: ·) (ih (fun x hx => h x (List.mem_cons_of_mem c hx)))

theorem listMatchAt_none {cs : List Char}
    (h : ∀ c ∈ cs, c ≠ '-' ∧ c ≠ '*' ∧ c ≠ '+') : listMatchAt cs = none := by
  unfold listMatchAt
  split
  case _ c cs' heq =>
    have hc : c ∈ cs := mem_of_mem_dropWhile (heq ▸ List.mem_cons_self c cs')
    have hno := h c hc
    simp [hno.1, hno.2.1, hno.2.2]
  · rfl

theorem listStrip_id {cs : List Char} {fuel : Nat} {b : Bool}
    (h : ∀ c ∈ cs, c ≠ '-' ∧ c ≠ '*' ∧ c ≠ '+') : listStrip fuel b cs = cs := by
  induction fuel generalizing cs b with
  | zero => rfl
  | succ f ih =>
    cases cs with
    | nil => rfl
    | cons c cs' =>
      have htail : ∀ x ∈ cs', x ≠ '-' ∧ x ≠ '*' ∧ x ≠ '+' :=
        fun x hx => h x (List.mem_cons_of_mem c hx)
      cases b with
      | false =>
        simp only [listStrip]
        exact congrArg (c :: ·) (ih htail)
      | true =>
        simp only [listStrip, listMatchAt_none h]
        exact congrArg (c :: ·) (ih htail)

theorem mem_jsTrim {c : Char} {s : List Char} (h : c ∈ jsTrim s) : c ∈ s := by
  unfold jsTrim at h
  rw [List.mem_reverse] at h
  have h2 : c ∈ (List.dropWhile isJsWs s).reverse := mem_of_mem_dropWhile h
  rw [List.mem_reverse] at h2
  exact mem_of_mem_dropWhile h2

theorem cleanMarkdown_eq_trim {s : List Char} (h : mdPlain s) :
    cleanMarkdown s = jsTrim s := by
  have hstar : ∀ c ∈ s, c ≠ '*' := fun c hc => (h c hc).1
  have htick : ∀ c ∈ s, c ≠ Char.ofNat 96 := fun c hc => (h c hc).2.1
  have hhash : ∀ c ∈ s, c ≠ '#' := fun c hc => (h c hc).2.2.1
  have hbul : ∀ c ∈ s, c ≠ '-' ∧ c ≠ '*' ∧ c ≠ '+' :=
    fun c hc => ⟨(h c hc).2.2.2.1, (h c hc).1, (h c hc).2.2.2.2⟩
  simp only [cleanMarkdown]
  rw [stripDelim_id hstar, stripDelim_id hstar, stripDelim_id htick,
    headerStrip_id hhash, listStrip_id hbul]

/-! ## The imposed issue sort -/

theorem lineSub_neg (oa ob : Option Int) : lineSub oa ob = - lineSub ob oa := by
  cases oa <;> cases ob <;> simp [lineSub]

theorem issueCmp_neg (a b : ParsedReviewIssue) : issueCmp a b = - issueCmp b a := by
  simp only [issueCmp]
  rw [lineSub_neg a.line b.line]
  split <;> split <;> omega

theorem issueLe_of_not_lt {x y : ParsedReviewIssue} (h : ¬ issueCmp x y < 0) :
    issueLe y x := by
  unfold issueLe
  rw [issueCmp_neg]
  omega

theorem insertIss_head (x : ParsedReviewIssue) (ys : List ParsedReviewIssue) :
    (insertIss x ys).head? = some x ∨ (insertIss x ys).head? = ys.head? := by
  cases ys with
  | nil => left; rfl
  | cons y ys' =>
    rw [insertIss]
    split
    · left; rfl
    · right; rfl

theorem chain'_insertIss (x : ParsedReviewIssue) (l : List ParsedReviewIssue)
    (h : List.Chain' issueLe l) : List.Chain' issueLe (insertIss x l) := by
  induction l with
  | nil => simp [insertIss]
  | cons y ys ih =>
    rw [insertIss]
    split
    case isTrue hlt =>
      exact List.chain'_cons'.mpr ⟨fun z hz => by
        cases ys with
        | nil => simp at hz; subst hz; exact le_of_lt hlt
        | cons w ws =>
          simp at hz; subst hz
          exact le_of_lt hlt, h⟩
    case isFalse hge =>
      have hyx : issueLe y x := issueLe_of_not_lt hge
      have hch := List.chain'_cons'.mp h
      refine List.chain'_cons'.mpr ⟨fun z hz => ?_, ih hch.2⟩
      rcases insertIss_head x ys with he | he
      · rw [he] at hz; simp at hz; subst hz; exact hyx
      · rw [he] at hz; exact hch.1 z hz

theorem chain'_foldl_insert (l : List ParsedReviewIssue) :
    ∀ acc, List.Chain' issueLe acc →
      List.Chain' issueLe (l.foldl (fun a x => insertIss x a) acc) := by
  induction l with
  | nil => intro acc h; exact h
  | cons y ys ih => intro acc h; exact ih _ (chain'_insertIss y acc h)

theorem chain'_sortIssues (l : List ParsedReviewIssue) :
    List.Chain' issueLe (sortIssues l) :=
  chain'_foldl_insert l [] List.chain'_nil

theorem mem_insertIss {a x : ParsedReviewIssue} {l : List ParsedReviewIssue} :
    a ∈ insertIss x l ↔ a = x ∨ a ∈ l := by
  induction l with
  | nil => simp [insertIss]
  | cons y ys ih =>
    rw [insertIss]
    split
    · simp [List.mem_cons]
    · simp only [List.mem_cons, ih]
      tauto

theorem mem_sortIssues {a : ParsedReviewIssue} {l : List ParsedReviewIssue}
    (h : a ∈ sortIssues l) : a ∈ l := by
  have aux : ∀ (l' acc : List ParsedReviewIssue),
      a ∈ l'.foldl (fun ac x => insertIss x ac) acc → a ∈ acc ∨ a ∈ l' := by
    intro l'
    induction l' with
    | nil => intro acc h'; exact Or.inl h'
    | cons y ys ih =>
      intro acc h'
      rcases ih _ h' with hm | hm
      · rcases mem_insertIss.mp hm with he | hm2
        · right; exact he ▸ List.mem_cons_self y ys
        · left; exact hm2
      · right; exact List.mem_cons_of_mem y hm
  rcases aux l [] h with hc | hc
  · simp at hc
  · exact hc

theorem issueLe_imp {a b : ParsedReviewIssue} (h : issueLe a b) :
    severityOrder a.severity ≤ severityOrder b.severity ∧
    (severityOrder a.severity = severityOrder b.severity →
      ∀ x y : Int, a.line = some x → b.line = some y → x ≤ y) := by
  simp only [issueLe, issueCmp] at h
  split at h
  case isTrue hne =>
    refine ⟨by omega, fun he x y hx hy => ?_⟩
    omega
  case isFalse hnn =>
    refine ⟨by omega, fun he x y hx hy => ?_⟩
    rw [hx, hy] at h
    simp only [lineSub] at h
    omega

/-! ## Shapes of the issues each construction site can emit -/

theorem jsOr_length_le {a b : List Char} {n : Nat}
    (ha : a.length ≤ n) (hb : b.length ≤ n) : (jsOr a b).length ≤ n := by
  unfold jsOr
  split <;> assumption

theorem ctxDescription_length (context : List Char) :
    (ctxDescription context).length ≤ 300 := by
  unfold ctxDescription
  exact List.length_take_le 300 _

theorem ctxSuggestion_length (context : List Char) :
    (ctxSuggestion context).length ≤ 400 := by
  unfold ctxSuggestion
  split
  · exact List.length_take_le 400 _
  · simp

theorem extractIssueContext_some {context title : List Char}
    {parts : IssueContextParts}
    (h : extractIssueContext context title = some parts) :
    parts.description.length ≤ 300 ∧ parts.suggestion.length ≤ 400 := by
  unfold extractIssueContext at h
  split at h
  · exact absurd h (by simp)
  · injection h with h'
    subst h'
    refine ⟨jsOr_length_le (ctxDescription_length context) (by decide), ?_⟩
    exact jsOr_length_le (ctxSuggestion_length context) (by decide)

theorem buildPatternIssue_some {content : List Char} {idx : Nat}
    {sev title lineStr : List Char} {file : Option (List Char)}
    {i : ParsedReviewIssue}
    (h : buildPatternIssue content idx sev title lineStr file = some i) :
    i.column = none ∧ i.description.length ≤ 300 ∧ i.suggestion.length ≤ 400 := by
  unfold buildPatternIssue at h
  split at h
  · exact absurd h (by simp)
  · split at h
    · exact absurd h (by simp)
    case _ parts hparts =>
      injection h with h'
      subst h'
      have hc := extractIssueContext_some hparts
      exact ⟨rfl, jsOr_length_le hc.1 (by decide), jsOr_length_le hc.2 (by decide)⟩

theorem extractIssueDetails_some {content : List Char} {m : RawMatch}
    {i : ParsedReviewIssue}
    (h : extractIssueDetails content m = some i) :
    i.column = none ∧ i.description.length ≤ 300 ∧ i.suggestion.length ≤ 400 := by
  unfold extractIssueDetails at h
  split at h
  · exact buildPatternIssue_some h
  · exact buildPatternIssue_some h
  · exact absurd h (by simp)

theorem extractSuggestionFromSection_length (s : List Char) :
    (extractSuggestionFromSection s).length ≤ 200 := by
  unfold extractSuggestionFromSection
  split
  · exact List.length_take_le 200 _
  · simp

theorem mkFallbackIssue_some {s lm : List Char} {i : ParsedReviewIssue}
    (h : mkFallbackIssue s lm = some i) :
    i.column = none ∧ (∃ n, i.line = some n ∧ 1 ≤ n) ∧
      i.description.length ≤ 300 ∧ i.suggestion.length ≤ 400 := by
  unfold mkFallbackIssue at h
  split at h
  · exact absurd h (by simp)
  case _ n hn =>
    split at h
    case isTrue hpos =>
      injection h with h'
      subst h'
      refine ⟨rfl, ⟨n, rfl, hpos⟩, ?_, ?_⟩
      · refine jsOr_length_le ?_ (by decide)
        unfold extractDescriptionFromSection
        exact le_trans (List.length_take_le 200 _) (by omega)
      · refine jsOr_length_le ?_ (by decide)
        exact le_trans (extractSuggestionFromSection_length s) (by omega)
    case isFalse => exact absurd h (by simp)

theorem parseSummaryHeaderPart_length (content : List Char) :
    (parseSummaryHeaderPart content).length ≤ 500 := by
  unfold parseSummaryHeaderPart
  split
  · exact List.length_take_le 500 _
  · simp

theorem parseSummaryFallbackPart_length (content : List Char) :
    (parseSummaryFallbackPart content).length ≤ 500 := by
  unfold parseSummaryFallbackPart
  split
  · split
    · exact le_trans (List.length_take_le 300 _) (by omega)
    · simp
  · simp

theorem parseSummary_length (content : List Char) :
    (parseSummary content).length ≤ 500 := by
  unfold parseSummary
  split
  · exact parseSummaryHeaderPart_length content
  · exact parseSummaryFallbackPart_length content

/-! ## Membership chasing through assembly -/

theorem parseReviewContent_issues (content : List Char) :
    (parseReviewContent content).issues = parseIssues content := rfl

theorem mem_parseIssues {content : List Char} {i : ParsedReviewIssue}
    (hi : i ∈ parseIssues content) :
    i ∈ rawPatternIssues content ∨
      (rawPatternIssues content = [] ∧ i ∈ parseStructuredIssues content) := by
  simp only [parseIssues] at hi
  have hm := mem_sortIssues hi
  by_cases hb : rawPatternIssues content = []
  · rw [if_pos hb] at hm
    exact Or.inr ⟨hb, hm⟩
  · rw [if_neg hb] at hm
    exact Or.inl hm

theorem rawPatternIssues_shape {content : List Char} {i : ParsedReviewIssue}
    (h : i ∈ rawPatternIssues content) :
    i.column = none ∧ i.description.length ≤ 300 ∧ i.suggestion.length ≤ 400 := by
  unfold rawPatternIssues at h
  rcases List.mem_filterMap.mp h with ⟨m, _, hm⟩
  exact extractIssueDetails_some hm

theorem parseStructuredIssues_shape {content : List Char} {i : ParsedReviewIssue}
    (h : i ∈ parseStructuredIssues content) :
    i.column = none ∧ (∃ n, i.line = some n ∧ 1 ≤ n) ∧
      i.description.length ≤ 300 ∧ i.suggestion.length ≤ 400 := by
  unfold parseStructuredIssues at h
  rcases List.mem_flatMap.mp h with ⟨s, _, hmem⟩
  by_cases hs : hasSeverityIndicator s
  · rw [if_pos hs] at hmem
    rcases List.mem_filterMap.mp hmem with ⟨lm, _, hlm⟩
    exact mkFallbackIssue_some hlm
  · rw [if_neg hs] at hmem
    simp at hmem

theorem extractIssueDetails_none_of_bad_severity {content : List Char}
    {m : RawMatch}
    (hm : normalizeSeverity (m.groups.headD []) = none) :
    extractIssueDetails content m = none := by
  unfold extractIssueDetails
  split
  case _ sev title lineStr heq =>
    rw [heq] at hm
    simp only [List.headD_cons] at hm
    unfold buildPatternIssue
    rw [hm]
  case _ sev title file lineStr heq =>
    rw [heq] at hm
    simp only [List.headD_cons] at hm
    unfold buildPatternIssue
    rw [hm]
  · rfl

/-! ## The claims -/

/-- C1 (as stated, refuted at a concrete input): on `c1cexInput` the emitted
issues are, in order, lines 5, 7 and NaN, all of severity critical; the
adjacent pair (line 7, line NaN) has equal severity ranks but
`7 ≤ NaN` is false, so the claimed sort invariant fails. -/
theorem c1_sort_invariant_counterexample :
    ¬ List.Chain' (fun a b =>
      severityOrder a.severity ≤ severityOrder b.severity ∧
      (severityOrder a.severity = severityOrder b.severity →
        jsNumLe a.line b.line))
      (parseReviewContent c1cexInput).issues := by
  have h : (parseReviewContent c1cexInput).issues =
      [c1cexIssue (some 5) "A".data, c1cexIssue (some 7) "B".data,
       c1cexIssue none "7".data] := by decide
  rw [h]
  intro hc
  exact ((List.chain'_cons.mp (List.chain'_cons.mp hc).2).1).2 rfl

/-- C1 (amended): after parseReviewContent returns, every adjacent pair of
issues has non-decreasing severity rank, and when the ranks are equal and
both line fields are real numbers (not NaN), the lines are non-decreasing.
The restriction to real lines is forced: a pattern-3 match binds its
trailing description to the line slot, parseInt can yield NaN there, and
the comparator treats NaN ties as equal, so nothing orders them. -/
theorem c1_sort_invariant_amended (content : List Char) :
    List.Chain' (fun a b =>
      severityOrder a.severity ≤ severityOrder b.severity ∧
      (severityOrder a.severity = severityOrder b.severity →
        ∀ x y : Int, a.line = some x → b.line = some y → x ≤ y))
      (parseReviewContent content).issues := by
  rw [parseReviewContent_issues]
  have hch : List.Chain' issueLe (parseIssues content) := by
    simp only [parseIssues]
    exact chain'_sortIssues _
  exact List.Chain'.imp (fun a b hab => issueLe_imp hab) hch

/-- C2: parseReviewContent is total — for every input string it returns a
ParsedReviewData value.  In this embedding every fallible sub-extraction
returns an Option resolved to a default or omission, and the one reachable
exception (the group-free Context/Task agent-prompt regex) is caught inside
extractIssueDetails, so no failure escapes. -/
theorem c2_total_never_throws (content : List Char) :
    ∃ r : ParsedReviewData, parseReviewContent content = r :=
  ⟨parseReviewContent content, rfl⟩

/-- C3 (as stated, refuted at a concrete input): on the input
`**[CRITICAL] Foo (Line 0)**` the pattern matcher emits an issue whose line
is 0, because parseInt of the captured digits is never checked for
positivity on the pattern path. -/
theorem c3_line_ge_one_counterexample :
    ∃ i ∈ (parseReviewContent c3cexInput).issues, i.line = some 0 := by decide

/-- C3 (amended): line ≥ 1 does hold for every issue synthesized by the
fallback scanner (which guards lineNum > 0); when the pattern matcher
produced no issues, every emitted issue therefore has an integer line ≥ 1. -/
theorem c3_fallback_line_ge_one (content : List Char)
    (hraw : rawPatternIssues content = [])
    (i : ParsedReviewIssue) (hi : i ∈ (parseReviewContent content).issues) :
    ∃ n : Int, i.line = some n ∧ 1 ≤ n := by
  rw [parseReviewContent_issues] at hi
  rcases mem_parseIssues hi with hp | ⟨_, hf⟩
  · rw [hraw] at hp
    simp at hp
  · exact (parseStructuredIssues_shape hf).2.1

/-- Witness for C3 (amended) at `findingsInput`. -/
theorem c3_fallback_line_ge_one_witness :
    ∃ n : Int, findingsIssue.line = some n ∧ 1 ≤ n :=
  c3_fallback_line_ge_one findingsInput (by decide) findingsIssue (by decide)

/-- C4 (as stated, refuted at a concrete input): the emitted description on
`c4cexInput` is the raw line `see bug #42 here`, which still contains
markdown (`#`); truncating its markdown-cleaned form would give a different
string, so the description cap is not applied after cleaning. -/
theorem c4_truncation_after_cleaning_counterexample :
    (parseReviewContent c4cexInput).issues.map (fun i => i.description) =
      ["see bug #42 here".data] ∧
    (cleanMarkdown "see bug #42 here".data).take 300 ≠ "see bug #42 here".data := by
  decide

/-- C4 (amended): the caps themselves are hard — every emitted description
is at most 300 characters, every suggestion at most 400, and the summary at
most 500 — but the description (both paths) and the fallback suggestion are
truncated raw, without markdown cleaning; only the pattern-path suggestion
and the summary are cleaned before truncation. -/
theorem c4_truncation_caps (content : List Char) (i : ParsedReviewIssue)
    (hi : i ∈ (parseReviewContent content).issues) :
    i.description.length ≤ 300 ∧ i.suggestion.length ≤ 400 ∧
      (parseReviewContent content).summary.length ≤ 500 := by
  have hs : (parseReviewContent content).summary = parseSummary content := rfl
  rw [parseReviewContent_issues] at hi
  rcases mem_parseIssues hi with hp | ⟨_, hf⟩
  · have hsh := rawPatternIssues_shape hp
    exact ⟨hsh.2.1, hsh.2.2, hs ▸ parseSummary_length content⟩
  · have hsh := parseStructuredIssues_shape hf
    exact ⟨hsh.2.2.1, hsh.2.2.2, hs ▸ parseSummary_length content⟩

/-- Witness for C4 (amended) at `findingsInput`. -/
theorem c4_truncation_caps_witness :
    findingsIssue.description.length ≤ 300 ∧
      findingsIssue.suggestion.length ≤ 400 ∧
      (parseReviewContent findingsInput).summary.length ≤ 500 :=
  c4_truncation_caps findingsInput findingsIssue (by decide)

/-- C5 (as stated, refuted at a concrete input): cleanMarkdown is not
idempotent — the multiline bullet replace strips one bullet level per
application, so `- - a` cleans to `- a` and cleans again to `a`. -/
theorem c5_idempotent_counterexample :
    cleanMarkdown (cleanMarkdown "- - a".data) ≠ cleanMarkdown "- - a".data := by
  decide

/-- C5 (amended): cleanMarkdown is idempotent on markup-free text (no
asterisk, backtick, hash or bullet characters), where it reduces to
whitespace trimming, and trimming is idempotent.  In general a second
application can strip further markup uncovered by the first. -/
theorem c5_idempotent_on_plain (s : List Char) (h : mdPlain s) :
    cleanMarkdown (cleanMarkdown s) = cleanMarkdown s := by
  have h2 : mdPlain (jsTrim s) := fun c hc => h c (mem_jsTrim hc)
  rw [cleanMarkdown_eq_trim h, cleanMarkdown_eq_trim h2, jsTrim_idem]

/-- Witness for C5 (amended) at a concrete markup-free string. -/
theorem c5_idempotent_on_plain_witness :
    cleanMarkdown (cleanMarkdown "plain text".data) =
      cleanMarkdown "plain text".data :=
  c5_idempotent_on_plain "plain text".data (by unfold mdPlain; decide)

/-- C6: on the fallback-activation input the primary pattern matcher finds
zero matches and the fallback section scanner emits exactly one issue, with
line 12 and severity critical (inferred from the section keyword). -/
theorem c6_fallback_activation :
    (parseReviewContent findingsInput).issues = [findingsIssue] ∧
      rawPatternIssues findingsInput = [] := by decide

/-- C7: on the two-fenced-blocks input the diff block is recovered and the
code-block map holds exactly the filename-labelled block; the diff-labelled
block is not added to the map. -/
theorem c7_code_blocks :
    (parseReviewContent c7Input).diffContent = "+foo".data ∧
      (parseReviewContent c7Input).codeContent =
        [("utils.js".data, "const x=1;".data)] := by decide

/-- C8: the emoji token 🔴 normalizes to critical; the token `moderate`
normalizes to none; any match whose severity token does not normalize is
discarded by extractIssueDetails; and on `moderateInput` (whose only match
has the non-normalizing token `Moderate problem`) no issue is emitted at
all. -/
theorem c8_severity_normalization :
    normalizeSeverity "🔴".data = some Severity.critical ∧
    normalizeSeverity "moderate".data = none ∧
    (∀ (content : List Char) (m : RawMatch),
      normalizeSeverity (m.groups.headD []) = none →
      extractIssueDetails content m = none) ∧
    (parseReviewContent moderateInput).issues = [] :=
  ⟨by decide, by decide,
   fun _ _ hm => extractIssueDetails_none_of_bad_severity hm,
   by decide⟩

/-- C9: the empty input yields no issues, empty diff content, an empty
code-block map, and the metadata defaults. -/
theorem c9_empty_input_defaults :
    (parseReviewContent "".data).issues = [] ∧
    (parseReviewContent "".data).diffContent = [] ∧
    (parseReviewContent "".data).codeContent = [] ∧
    (parseReviewContent "".data).branch = "main".data ∧
    (parseReviewContent "".data).repository = "unknown".data ∧
    (parseReviewContent "".data).provider = "AI".data ∧
    (parseReviewContent "".data).model = "unknown".data := by decide

/-- C10: no code path assigns the column field — every issue in every parse
result has column = none. -/
theorem c10_column_never_assigned (content : List Char) (i : ParsedReviewIssue)
    (hi : i ∈ (parseReviewContent content).issues) : i.column = none := by
  rw [parseReviewContent_issues] at hi
  rcases mem_parseIssues hi with hp | ⟨_, hf⟩
  · exact (rawPatternIssues_shape hp).1
  · exact (parseStructuredIssues_shape hf).1

/-- Witness for C10 at `findingsInput`. -/
theorem c10_column_never_assigned_witness : findingsIssue.column = none :=
  c10_column_never_assigned findingsInput findingsIssue (by decide)
